import Mathlib

/-!
Shallow embedding of the `EventBus` static class of `protorians/events-bus`
(`src/source/enums.ts`) together with proofs of the specification's claims.

Modelling choices, all taken from the TypeScript source:

* `Kind` models `EventBusEnum` values: opaque comparable identifiers (strings).
* Listener functions are identified by reference in JS `Set`s.  We model a
  listener identity as `L`: either a user-supplied callable (`L.base n`) or a
  wrapper closure allocated by `EventBus.once` (`L.wrapper k n uid`), where
  `uid` is drawn from a fresh counter in the bus state so that two calls to
  `once` allocate two distinct closures, exactly as in JS.
* A listener's behaviour when invoked is given by an environment `Env`
  mapping each base-listener id to an `Act`: do nothing, throw, subscribe a
  base listener, or unsubscribe a base listener.  This is enough to express
  every claim (throwing listeners, re-entrant mutation during dispatch).
* `stack` (a JS `Map<EventBusEnum, Set<callable>>`) is an insertion-ordered
  association list; `Map.set` on a present key updates in place, otherwise
  appends.  A `Set` is a duplicate-free insertion-ordered list: `add` is a
  no-op on a present element, `delete` removes it, `clear` empties it.
* `dispatch` runs `stack.get(event)?.forEach(c => c(payload))`.  JS
  `Set.forEach` iterates the live set: at each step the first not-yet-visited
  element of the current set is invoked, so elements added during the pass
  are visited and elements deleted before their turn are skipped.  The loop
  is fueled because a listener chain that keeps subscribing new listeners
  makes the real `forEach` diverge as well; theorems supply enough fuel.
* An exception thrown by a listener aborts the `forEach` and propagates; the
  runs below return a `Bool` flag recording whether a throw escaped, plus a
  trace of the invocations `(base id, payload)` made during the pass.
-/

namespace EventsBus

abbrev Kind := String
abbrev Payload := Nat

/-- Identity of a listener stored in a `Set`: a user callable, or a wrapper
closure allocated by `once` (its `uid` models JS function identity). -/
inductive L where
  | base (n : Nat)
  | wrapper (k : Kind) (inner : Nat) (uid : Nat)
deriving DecidableEq, Repr

/-- The base-listener id that an invocation of this listener calls. -/
def L.invokes : L → Nat
  | .base n => n
  | .wrapper _ n _ => n

/-- Behaviour of a user callable when invoked. -/
inductive Act where
  | pure
  | throws
  | subAct (k : Kind) (n : Nat)
  | unsubAct (k : Kind) (n : Nat)
deriving DecidableEq, Repr

/-- Assignment of behaviours to user callables. -/
structure Env where
  act : Nat → Act

/-- The JS `Map<EventBusEnum, Set<callable>>`, insertion ordered. -/
abbrev Stack := List (Kind × List L)

/-- `Map.get`. -/
def mapGet (st : Stack) (k : Kind) : Option (List L) :=
  match st with
  | [] => none
  | (k', v) :: rest => if k' = k then some v else mapGet rest k

/-- `Map.set`: update in place if the key is present, else append. -/
def mapSet (st : Stack) (k : Kind) (v : List L) : Stack :=
  match st with
  | [] => [(k, v)]
  | (k', v') :: rest => if k' = k then (k, v) :: rest else (k', v') :: mapSet rest k v

/-- `Set.add`: no-op if the element is present, else append. -/
def setAdd (s : List L) (l : L) : List L :=
  if l ∈ s then s else s ++ [l]

/-- State of the static `EventBus` class: the `stack` map plus a fresh-uid
counter modelling allocation of `once` wrapper closures. -/
structure Bus where
  stack : Stack
  next : Nat
deriving DecidableEq, Repr

/-- The initial (empty) bus. -/
def Bus.init : Bus := ⟨[], 0⟩

/-- The current listener set of `k` (empty when `k` has no entry). -/
def sOf (b : Bus) (k : Kind) : List L :=
  (mapGet b.stack k).getD []

/-- `EventBus.subscribe`: create an empty set for the kind if missing, then
`add` the callable to it. -/
def subscribe (b : Bus) (k : Kind) (l : L) : Bus :=
  let st := if (mapGet b.stack k).isSome then b.stack else mapSet b.stack k []
  { b with stack :=
      match mapGet st k with
      | some s => mapSet st k (setAdd s l)
      | none => st }

/-- `EventBus.unsubscribe`: `stack.get(event)?.delete(callable)`. -/
def unsubscribe (b : Bus) (k : Kind) (l : L) : Bus :=
  { b with stack :=
      match mapGet b.stack k with
      | some s => mapSet b.stack k (s.erase l)
      | none => b.stack }

/-- `EventBus.once`: allocate a fresh wrapper closure (which, when invoked,
calls the callable and then unsubscribes itself — see `invoke`) and
subscribe it. -/
def once (b : Bus) (k : Kind) (n : Nat) : Bus :=
  subscribe { b with next := b.next + 1 } k (L.wrapper k n b.next)

/-- `EventBus.batch`: subscribe each callable in turn. -/
def batch (b : Bus) (k : Kind) (ls : List L) : Bus :=
  ls.foldl (fun acc c => subscribe acc k c) b

/-- `EventBus.batchOnce`: `once` each callable in turn. -/
def batchOnce (b : Bus) (k : Kind) (ns : List Nat) : Bus :=
  ns.foldl (fun acc c => once acc k c) b

/-- `EventBus.multiple`: subscribe the callable to each kind in turn. -/
def multiple (b : Bus) (ks : List Kind) (l : L) : Bus :=
  ks.foldl (fun acc e => subscribe acc e l) b

/-- `EventBus.multipleOnce`: `once` the callable on each kind in turn. -/
def multipleOnce (b : Bus) (ks : List Kind) (n : Nat) : Bus :=
  ks.foldl (fun acc e => once acc e n) b

/-- `EventBus.clear`: `stack.get(event)?.clear()`. -/
def clear (b : Bus) (k : Kind) : Bus :=
  { b with stack :=
      match mapGet b.stack k with
      | some _ => mapSet b.stack k []
      | none => b.stack }

/-- `EventBus.clearAll`: `stack.clear()`. -/
def clearAll (b : Bus) : Bus := { b with stack := [] }

/-- `EventBus.get`. -/
def get (b : Bus) (k : Kind) : Option (List L) := mapGet b.stack k

/-- `EventBus.events`: the keys of the stack, in insertion order. -/
def events (b : Bus) : List Kind := b.stack.map Prod.fst

/-- `EventBus.listeners`: the values of the stack, aligned with `events`. -/
def listeners (b : Bus) : List (List L) := b.stack.map Prod.snd

/-- `EventBus.count`: `stack.size`. -/
def count (b : Bus) : Nat := b.stack.length

/-- `EventBus.empty`: `stack.size === 0`. -/
def empty (b : Bus) : Bool := b.stack.length == 0

/-- Run a user callable: returns the new bus and whether it threw. -/
def runBase (env : Env) (b : Bus) (n : Nat) : Bus × Bool :=
  match env.act n with
  | .pure => (b, false)
  | .throws => (b, true)
  | .subAct k m => (subscribe b k (L.base m), false)
  | .unsubAct k m => (unsubscribe b k (L.base m), false)

/-- Invoke a stored listener with a payload.  A wrapper runs
`callable(payload); this.unsubscribe(event, once);` — sequential statements
with no try/finally, so a throw from the callable skips the unsubscribe.
Returns the new bus, the trace of callable invocations, and the throw flag. -/
def invoke (env : Env) (b : Bus) (l : L) (p : Payload) :
    Bus × List (Nat × Payload) × Bool :=
  match l with
  | .base n =>
      let r := runBase env b n
      (r.1, [(n, p)], r.2)
  | .wrapper k n _ =>
      let r := runBase env b n
      if r.2 then (r.1, [(n, p)], true)
      else (unsubscribe r.1 k l, [(n, p)], false)

/-- The first element of the live set not yet visited in this pass. -/
def firstUnvisited (s v : List L) : Option L :=
  s.find? (fun l => !(v.contains l))

/-- The `forEach` loop of `dispatch` over the live set of `k`: repeatedly
invoke the first not-yet-visited member of the current set; stop when a
throw escapes or every member has been visited. -/
def dispatchLoop (env : Env) (fuel : Nat) (b : Bus) (k : Kind) (p : Payload)
    (v : List L) : Bus × List (Nat × Payload) × Bool :=
  match fuel with
  | 0 => (b, [], false)
  | fuel + 1 =>
    match mapGet b.stack k with
    | none => (b, [], false)
    | some s =>
      match firstUnvisited s v with
      | none => (b, [], false)
      | some l =>
        let r := invoke env b l p
        if r.2.2 then (r.1, r.2.1, true)
        else
          let r2 := dispatchLoop env fuel r.1 k p (v ++ [l])
          (r2.1, r.2.1 ++ r2.2.1, r2.2.2)

/-- `EventBus.dispatch`: `stack.get(event)?.forEach(c => c(payload))`. -/
def dispatch (env : Env) (fuel : Nat) (b : Bus) (k : Kind) (p : Payload) :
    Bus × List (Nat × Payload) × Bool :=
  match mapGet b.stack k with
  | none => (b, [], false)
  | some _ => dispatchLoop env fuel b k p []

/-- A listener stored for a kind whose behaviour neither mutates the bus nor
throws: a user callable with `Act.pure`. -/
def PureB (env : Env) (l : L) : Prop :=
  ∃ n, l = L.base n ∧ env.act n = Act.pure

/-! ### Map and set lemmas -/

theorem mapGet_mapSet_self (st : Stack) (k : Kind) (v : List L) :
    mapGet (mapSet st k v) k = some v := by
  induction st with
  | nil => simp [mapGet, mapSet]
  | cons hd tl ih =>
      obtain ⟨k', v'⟩ := hd
      by_cases h : k' = k
      · simp [mapGet, mapSet, h]
      · simp [mapGet, mapSet, h, ih]

theorem mapGet_mapSet_ne (st : Stack) {k k' : Kind} (v : List L) (h : k' ≠ k) :
    mapGet (mapSet st k v) k' = mapGet st k' := by
  induction st with
  | nil => simp [mapGet, mapSet, Ne.symm h]
  | cons hd tl ih =>
      obtain ⟨k₀, v₀⟩ := hd
      by_cases hk : k₀ = k
      · subst hk
        simp [mapGet, mapSet, Ne.symm h]
      · simp only [mapSet, if_neg hk, mapGet]
        by_cases hk' : k₀ = k'
        · simp [hk']
        · simp [hk', ih]

theorem mapSet_self {st : Stack} {k : Kind} {v : List L}
    (h : mapGet st k = some v) : mapSet st k v = st := by
  induction st with
  | nil => simp [mapGet] at h
  | cons hd tl ih =>
      obtain ⟨k₀, v₀⟩ := hd
      by_cases hk : k₀ = k
      · subst hk
        simp [mapGet] at h
        simp [mapSet, h]
      · simp [mapGet, hk] at h
        simp [mapSet, hk, ih h]

theorem mem_keys_of_mapGet_isSome {st : Stack} {k : Kind}
    (h : (mapGet st k).isSome) : k ∈ st.map Prod.fst := by
  induction st with
  | nil => simp [mapGet] at h
  | cons hd tl ih =>
      obtain ⟨k₀, v₀⟩ := hd
      by_cases hk : k₀ = k
      · simp [hk]
      · simp [mapGet, hk] at h
        simp [ih h]

theorem setAdd_of_mem {s : List L} {l : L} (h : l ∈ s) : setAdd s l = s := by
  simp [setAdd, h]

theorem setAdd_of_not_mem {s : List L} {l : L} (h : l ∉ s) :
    setAdd s l = s ++ [l] := by
  simp [setAdd, h]

theorem mem_setAdd {s : List L} {l l' : L} :
    l' ∈ setAdd s l ↔ l' ∈ s ∨ l' = l := by
  by_cases h : l ∈ s
  · rw [setAdd_of_mem h]
    constructor
    · exact Or.inl
    · rintro (h' | rfl) <;> assumption
  · rw [setAdd_of_not_mem h]
    simp

theorem nodup_setAdd {s : List L} (l : L) (h : s.Nodup) : (setAdd s l).Nodup := by
  by_cases hm : l ∈ s
  · rw [setAdd_of_mem hm]; exact h
  · rw [setAdd_of_not_mem hm]
    simp [List.nodup_append, h, hm]

/-! ### Characterisation of the registry operations -/

theorem mapGet_subscribe_self (b : Bus) (k : Kind) (l : L) :
    mapGet (subscribe b k l).stack k = some (setAdd (sOf b k) l) := by
  unfold subscribe sOf
  cases h : mapGet b.stack k with
  | none =>
      simp only [h, Option.isSome_none, Bool.false_eq_true, if_false,
        mapGet_mapSet_self]
      simp [mapGet_mapSet_self]
  | some s =>
      simp only [h, Option.isSome_some, if_true, h, mapGet_mapSet_self]
      simp [h, mapGet_mapSet_self]

theorem sOf_subscribe_self (b : Bus) (k : Kind) (l : L) :
    sOf (subscribe b k l) k = setAdd (sOf b k) l := by
  simp [sOf, mapGet_subscribe_self]

theorem sOf_subscribe_ne (b : Bus) {k k' : Kind} (l : L) (h : k' ≠ k) :
    sOf (subscribe b k l) k' = sOf b k' := by
  unfold subscribe sOf
  cases hg : mapGet b.stack k with
  | none =>
      simp only [hg, Option.isSome_none, Bool.false_eq_true, if_false,
        mapGet_mapSet_self]
      simp [mapGet_mapSet_self, mapGet_mapSet_ne _ _ h]
  | some s =>
      simp only [hg, Option.isSome_some, if_true]
      simp [hg, mapGet_mapSet_ne _ _ h]

theorem subscribe_next (b : Bus) (k : Kind) (l : L) :
    (subscribe b k l).next = b.next := rfl

theorem mapGet_unsubscribe_self {b : Bus} {k : Kind} {s : List L} (l : L)
    (h : mapGet b.stack k = some s) :
    mapGet (unsubscribe b k l).stack k = some (s.erase l) := by
  simp [unsubscribe, h, mapGet_mapSet_self]

theorem sOf_unsubscribe_self (b : Bus) (k : Kind) (l : L) :
    sOf (unsubscribe b k l) k = (sOf b k).erase l := by
  unfold unsubscribe sOf
  cases h : mapGet b.stack k with
  | none => simp [h]
  | some s => simp [h, mapGet_mapSet_self]

theorem sOf_unsubscribe_ne (b : Bus) {k k' : Kind} (l : L) (h : k' ≠ k) :
    sOf (unsubscribe b k l) k' = sOf b k' := by
  unfold unsubscribe sOf
  cases hg : mapGet b.stack k with
  | none => simp [hg]
  | some s => simp [hg, mapGet_mapSet_ne _ _ h]

theorem unsubscribe_next (b : Bus) (k : Kind) (l : L) :
    (unsubscribe b k l).next = b.next := rfl

/-! ### Dispatch loop lemmas -/


theorem firstUnvisited_none {s v : List L} (h : ∀ l ∈ s, l ∈ v) :
    firstUnvisited s v = none := by
  rw [firstUnvisited, List.find?_eq_none]
  intro x hx
  simp [h x hx]

theorem firstUnvisited_seg {pre : List L} {x : L} (rest : List L) {v : List L}
    (hpre : ∀ l ∈ pre, l ∈ v) (hx : x ∉ v) :
    firstUnvisited (pre ++ x :: rest) v = some x := by
  induction pre with
  | nil =>
      rw [List.nil_append, firstUnvisited, List.find?_cons_of_pos]
      simp [hx]
  | cons y pre ih =>
      rw [List.cons_append, firstUnvisited, List.find?_cons_of_neg]
      · exact ih (fun l hl => hpre l (by simp [hl]))
      · simp [hpre y (by simp)]

theorem mem_of_firstUnvisited {s v : List L} {l : L}
    (h : firstUnvisited s v = some l) : l ∈ s :=
  List.mem_of_find?_eq_some h

theorem dispatchLoop_visited {env : Env} {fuel : Nat} {b : Bus} {k : Kind}
    {p : Payload} {v : List L} (h : ∀ l ∈ sOf b k, l ∈ v) :
    dispatchLoop env fuel b k p v = (b, [], false) := by
  cases fuel with
  | zero => rfl
  | succ f =>
      rw [dispatchLoop]
      cases hg : mapGet b.stack k with
      | none => rfl
      | some s =>
          have hn : firstUnvisited s v = none := by
            refine firstUnvisited_none fun l hl => h l ?_
            simp [sOf, hg, hl]
          simp [hn]

theorem dispatchLoop_pureSeg (env : Env) (k : Kind) (p : Payload) (s : List L) :
    ∀ (pre tail : List L) (b : Bus) (v : List L) (fuel : Nat),
    mapGet b.stack k = some (pre ++ s ++ tail) →
    (pre ++ s ++ tail).Nodup →
    (∀ l ∈ pre, l ∈ v) → (∀ l ∈ s, l ∉ v) → (∀ l ∈ s, PureB env l) →
    dispatchLoop env (s.length + fuel) b k p v =
      ((dispatchLoop env fuel b k p (v ++ s)).1,
       s.map (fun l => (l.invokes, p)) ++ (dispatchLoop env fuel b k p (v ++ s)).2.1,
       (dispatchLoop env fuel b k p (v ++ s)).2.2) := by
  induction s with
  | nil =>
      intro pre tail b v fuel h1 h2 h3 h4 h5
      simp
  | cons x s ih =>
      intro pre tail b v fuel h1 h2 h3 h4 h5
      have hx : x ∉ v := h4 x (by simp)
      have hfu : (x :: s).length + fuel = (s.length + fuel) + 1 := by
        simp [List.length_cons]; omega
      have h1' : mapGet b.stack k = some (pre ++ x :: (s ++ tail)) := by
        simpa using h1
      have hfirst : firstUnvisited (pre ++ x :: (s ++ tail)) v = some x :=
        firstUnvisited_seg _ h3 hx
      obtain ⟨n, hxn, hact⟩ := h5 x (by simp)
      have hinv : invoke env b x p = (b, [(n, p)], false) := by
        subst hxn; simp [invoke, runBase, hact]
      have hnodxs : (x :: s).Nodup := by
        have h2' : (pre ++ ((x :: s) ++ tail)).Nodup := by simpa using h2
        exact (h2'.of_append_right).of_append_left
      have hxs : x ∉ s := (List.nodup_cons.mp hnodxs).1
      have ihres := ih (pre ++ [x]) tail b (v ++ [x]) fuel
        (by simpa using h1)
        (by simpa using h2)
        (by
          intro l hl
          rcases List.mem_append.mp hl with h' | h'
          · exact List.mem_append.mpr (Or.inl (h3 l h'))
          · exact List.mem_append.mpr (Or.inr h'))
        (by
          intro l hl
          intro hvl
          rcases List.mem_append.mp hvl with h' | h'
          · exact h4 l (by simp [hl]) h'
          · simp at h'
            subst h'
            exact hxs hl)
        (fun l hl => h5 l (by simp [hl]))
      rw [hfu]
      rw [dispatchLoop]
      simp only [h1', hfirst, hinv]
      simp only [Bool.false_eq_true, if_false]
      rw [ihres]
      have hv : (v ++ [x]) ++ s = v ++ x :: s := by simp
      rw [hv]
      subst hxn
      simp [L.invokes]


theorem dispatch_of_none {env : Env} {fuel : Nat} {b : Bus} {k : Kind}
    {p : Payload} (h : mapGet b.stack k = none) :
    dispatch env fuel b k p = (b, [], false) := by
  simp [dispatch, h]

theorem dispatch_of_some {env : Env} {fuel : Nat} {b : Bus} {k : Kind}
    {p : Payload} {s : List L} (h : mapGet b.stack k = some s) :
    dispatch env fuel b k p = dispatchLoop env fuel b k p [] := by
  simp [dispatch, h]

theorem dispatch_pure {env : Env} {b : Bus} {k : Kind} {p : Payload} {s : List L}
    (h : mapGet b.stack k = some s) (hnd : s.Nodup)
    (hp : ∀ l ∈ s, PureB env l) (fuel : Nat) :
    dispatch env (s.length + fuel) b k p =
      (b, s.map (fun l => (l.invokes, p)), false) := by
  rw [dispatch_of_some h]
  have hseg := dispatchLoop_pureSeg env k p s [] [] b [] fuel
    (by simpa using h) (by simpa using hnd) (by simp) (by simp) hp
  have hvis : dispatchLoop env fuel b k p ([] ++ s) = (b, [], false) := by
    refine dispatchLoop_visited ?_
    intro l hl
    simp only [sOf, h, Option.getD_some] at hl
    simpa using hl
  rw [hseg, hvis]
  simp

theorem mapGet_subscribe_ne (b : Bus) {k k' : Kind} (l : L) (h : k' ≠ k) :
    mapGet (subscribe b k l).stack k' = mapGet b.stack k' := by
  unfold subscribe
  cases hg : mapGet b.stack k with
  | none =>
      simp only [hg, Option.isSome_none, Bool.false_eq_true, if_false,
        mapGet_mapSet_self]
      simp [mapGet_mapSet_self, mapGet_mapSet_ne _ _ h]
  | some s =>
      simp only [hg, Option.isSome_some, if_true]
      simp [hg, mapGet_mapSet_ne _ _ h]

theorem mapGet_unsubscribe_ne (b : Bus) {k k' : Kind} (l : L) (h : k' ≠ k) :
    mapGet (unsubscribe b k l).stack k' = mapGet b.stack k' := by
  unfold unsubscribe
  cases hg : mapGet b.stack k with
  | none => simp [hg]
  | some s => simp [hg, mapGet_mapSet_ne _ _ h]

theorem mapSet_mapSet (st : Stack) (k : Kind) (v v' : List L) :
    mapSet (mapSet st k v) k v' = mapSet st k v' := by
  induction st with
  | nil => simp [mapSet]
  | cons hd tl ih =>
      obtain ⟨k₀, v₀⟩ := hd
      by_cases hk : k₀ = k
      · simp [mapSet, hk]
      · simp [mapSet, hk, ih]

theorem dispatchLoop_step {env : Env} {fuel : Nat} {b : Bus} {k : Kind}
    {p : Payload} {v : List L} {s : List L} {l : L}
    (hs : mapGet b.stack k = some s) (hf : firstUnvisited s v = some l) :
    dispatchLoop env (fuel + 1) b k p v =
      (if (invoke env b l p).2.2 then
        ((invoke env b l p).1, (invoke env b l p).2.1, true)
      else
        ((dispatchLoop env fuel (invoke env b l p).1 k p (v ++ [l])).1,
         (invoke env b l p).2.1 ++
           (dispatchLoop env fuel (invoke env b l p).1 k p (v ++ [l])).2.1,
         (dispatchLoop env fuel (invoke env b l p).1 k p (v ++ [l])).2.2)) := by
  rw [dispatchLoop]
  simp only [hs, hf]

theorem count_trace {u : List L} (p : Payload) (n : Nat)
    (hb : ∀ l ∈ u, ∃ m, l = L.base m) :
    (u.map (fun l => (l.invokes, p))).count (n, p) = u.count (L.base n) := by
  induction u with
  | nil => simp
  | cons x u ih =>
      obtain ⟨m, rfl⟩ := hb x (by simp)
      have ih' := ih (fun l hl => hb l (by simp [hl]))
      simp only [List.map_cons, List.count_cons]
      rw [ih']
      by_cases h : m = n
      · subst h
        simp [L.invokes]
      · simp [L.invokes, h, Ne.symm h]

/-! ### Claim C4: dispatch invokes every registered listener once, in order -/

/-- C4.  For every kind `k` and payload `p`, `dispatch` invokes every
listener currently registered for `k` exactly once, in the order they were
added, passing `p` to each (shown here for listeners that do not mutate the
bus and do not throw — re-entrant listeners are the subject of C10); if `k`
has no listener set, `dispatch` is a no-op. -/
theorem dispatch_invokes_all_in_order (env : Env) (b : Bus) (k : Kind)
    (p : Payload) (s : List L) (fuel : Nat) :
    (mapGet b.stack k = some s → s.Nodup → (∀ l ∈ s, PureB env l) →
      dispatch env (s.length + fuel) b k p =
        (b, s.map (fun l => (l.invokes, p)), false)) ∧
    (mapGet b.stack k = none → dispatch env fuel b k p = (b, [], false)) :=
  ⟨fun h hnd hp => dispatch_pure h hnd hp fuel, fun h => dispatch_of_none h⟩

/-- Concrete run of `dispatch_invokes_all_in_order`: two listeners receive
the payload once each, in subscription order, and dispatching an
unregistered kind is a no-op. -/
theorem dispatch_invokes_all_in_order_witness :
    dispatch (Env.mk fun _ => Act.pure) 5
        (subscribe (subscribe Bus.init "user:created" (L.base 1))
          "user:created" (L.base 2)) "user:created" 7 =
      (subscribe (subscribe Bus.init "user:created" (L.base 1))
          "user:created" (L.base 2), [(1, 7), (2, 7)], false) ∧
    dispatch (Env.mk fun _ => Act.pure) 5 Bus.init "user:created" 7 =
      (Bus.init, [], false) := by
  refine ⟨?_, ?_⟩
  · have h := (dispatch_invokes_all_in_order (Env.mk fun _ => Act.pure)
      (subscribe (subscribe Bus.init "user:created" (L.base 1))
        "user:created" (L.base 2)) "user:created" 7
      [L.base 1, L.base 2] 3).1 (by decide) (by decide)
      (by
        intro l hl
        simp only [List.mem_cons, List.not_mem_nil, or_false] at hl
        rcases hl with rfl | rfl
        · exact ⟨1, rfl, rfl⟩
        · exact ⟨2, rfl, rfl⟩)
    simpa using h
  · exact (dispatch_invokes_all_in_order (Env.mk fun _ => Act.pure)
      Bus.init "user:created" 7 [] 5).2 rfl

/-! ### Claim C8: clear empties the set but keeps the registry entry -/

/-- C8.  After `batch(k, [l1, l2, l3])` then `clear(k)`, a dispatch on `k`
invokes nothing (so none of the three listeners), yet `k` still appears in
`events`: `clear` empties the listener set without removing the entry. -/
theorem clear_keeps_entry (env : Env) (b : Bus) (k : Kind) (p : Payload)
    (fuel : Nat) (l1 l2 l3 : L) :
    dispatch env fuel (clear (batch b k [l1, l2, l3]) k) k p =
      (clear (batch b k [l1, l2, l3]) k, [], false) ∧
    k ∈ events (clear (batch b k [l1, l2, l3]) k) := by
  have hb : mapGet (batch b k [l1, l2, l3]).stack k
      = some (setAdd (sOf (subscribe (subscribe b k l1) k l2) k) l3) := by
    show mapGet (subscribe (subscribe (subscribe b k l1) k l2) k l3).stack k = _
    exact mapGet_subscribe_self _ _ _
  have hc : mapGet (clear (batch b k [l1, l2, l3]) k).stack k = some [] := by
    unfold clear
    simp [hb, mapGet_mapSet_self]
  constructor
  · rw [dispatch_of_some hc]
    exact dispatchLoop_visited (by simp [sOf, hc])
  · exact mem_keys_of_mapGet_isSome (by simp [hc])

/-! ### Claim C6: all registry operations are total no-ops on trivial cases -/

theorem subscribe_mem_eq {b : Bus} {k : Kind} {l : L} (hm : l ∈ sOf b k) :
    subscribe b k l = b := by
  cases hg : mapGet b.stack k with
  | none => simp [sOf, hg] at hm
  | some s =>
      have hms : l ∈ s := by simpa [sOf, hg] using hm
      unfold subscribe
      simp [hg, setAdd_of_mem hms, mapSet_self hg]

theorem unsubscribe_not_mem_eq {b : Bus} {k : Kind} {l : L}
    (hm : l ∉ sOf b k) : unsubscribe b k l = b := by
  cases hg : mapGet b.stack k with
  | none => simp [unsubscribe, hg]
  | some s =>
      have hms : l ∉ s := by simpa [sOf, hg] using hm
      unfold unsubscribe
      simp [hg, List.erase_of_not_mem hms, mapSet_self hg]

theorem dispatch_empty {env : Env} {fuel : Nat} {b : Bus} {k : Kind}
    {p : Payload} (he : sOf b k = []) : dispatch env fuel b k p = (b, [], false) := by
  cases hg : mapGet b.stack k with
  | none => exact dispatch_of_none hg
  | some s =>
      rw [dispatch_of_some hg]
      refine dispatchLoop_visited ?_
      rw [he]
      intro l' hl'
      simp at hl'

theorem clear_empty_eq {b : Bus} {k : Kind} (he : sOf b k = []) :
    clear b k = b := by
  cases hg : mapGet b.stack k with
  | none => simp [clear, hg]
  | some s =>
      have hse : s = [] := by simpa [sOf, hg] using he
      subst hse
      unfold clear
      simp [hg, mapSet_self hg]

/-- C6.  Every operation is a total function of the registry state and the
degenerate cases are well-defined no-ops, never errors: subscribing an
already-subscribed listener, unsubscribing an absent listener, dispatching a
kind with no listeners (no throw escapes), and clearing an empty or absent
kind all leave the bus unchanged. -/
theorem operations_total_no_ops (env : Env) (b : Bus) (k : Kind) (l : L)
    (p : Payload) (fuel : Nat) :
    (l ∈ sOf b k → subscribe b k l = b) ∧
    (l ∉ sOf b k → unsubscribe b k l = b) ∧
    (sOf b k = [] → dispatch env fuel b k p = (b, [], false)) ∧
    (sOf b k = [] → clear b k = b) :=
  ⟨fun hm => subscribe_mem_eq hm, fun hm => unsubscribe_not_mem_eq hm,
   fun he => dispatch_empty he, fun he => clear_empty_eq he⟩

/-- Concrete run of `operations_total_no_ops` covering the four degenerate
cases. -/
theorem operations_total_no_ops_witness :
    subscribe (subscribe Bus.init "k" (L.base 0)) "k" (L.base 0) =
      subscribe Bus.init "k" (L.base 0) ∧
    unsubscribe Bus.init "k" (L.base 0) = Bus.init ∧
    dispatch (Env.mk fun _ => Act.pure) 5 Bus.init "k" 7 = (Bus.init, [], false) ∧
    clear Bus.init "k" = Bus.init := by
  refine ⟨?_, ?_, ?_, ?_⟩
  · exact (operations_total_no_ops (Env.mk fun _ => Act.pure)
      (subscribe Bus.init "k" (L.base 0)) "k" (L.base 0) 7 5).1 (by decide)
  · exact (operations_total_no_ops (Env.mk fun _ => Act.pure)
      Bus.init "k" (L.base 0) 7 5).2.1 (by decide)
  · exact (operations_total_no_ops (Env.mk fun _ => Act.pure)
      Bus.init "k" (L.base 0) 7 5).2.2.1 rfl
  · exact (operations_total_no_ops (Env.mk fun _ => Act.pure)
      Bus.init "k" (L.base 0) 7 5).2.2.2 rfl

/-! ### Claim C5: subscribe is idempotent -/

/-- C5.  Subscribing the same listener to the same kind twice leaves the bus
exactly as after the first subscription, the listener is present exactly
once in the kind's set, and a subsequent dispatch invokes it exactly once
(stated for a set of non-mutating listeners so the dispatch run is
determined). -/
theorem subscribe_idempotent (env : Env) (b : Bus) (k : Kind) (n : Nat)
    (p : Payload) (fuel : Nat)
    (hnd : (sOf b k).Nodup)
    (hp : ∀ l ∈ sOf b k, PureB env l)
    (hn : env.act n = Act.pure) :
    subscribe (subscribe b k (L.base n)) k (L.base n) = subscribe b k (L.base n) ∧
    (sOf (subscribe b k (L.base n)) k).count (L.base n) = 1 ∧
    ((dispatch env ((sOf (subscribe b k (L.base n)) k).length + fuel)
        (subscribe b k (L.base n)) k p).2.1).count (n, p) = 1 := by
  have hsub : mapGet (subscribe b k (L.base n)).stack k
      = some (setAdd (sOf b k) (L.base n)) := mapGet_subscribe_self b k (L.base n)
  have hsOf : sOf (subscribe b k (L.base n)) k = setAdd (sOf b k) (L.base n) :=
    sOf_subscribe_self b k (L.base n)
  have hmem : L.base n ∈ setAdd (sOf b k) (L.base n) := mem_setAdd.mpr (Or.inr rfl)
  have hcnt : (setAdd (sOf b k) (L.base n)).count (L.base n) = 1 := by
    by_cases hm : L.base n ∈ sOf b k
    · rw [setAdd_of_mem hm]
      exact List.count_eq_one_of_mem hnd hm
    · rw [setAdd_of_not_mem hm]
      simp [List.count_append, List.count_eq_zero_of_not_mem hm]
  refine ⟨?_, ?_, ?_⟩
  · exact subscribe_mem_eq (by rw [hsOf]; exact hmem)
  · rw [hsOf]
    exact hcnt
  · have hnd' : (setAdd (sOf b k) (L.base n)).Nodup := nodup_setAdd _ hnd
    have hp' : ∀ l ∈ setAdd (sOf b k) (L.base n), PureB env l := by
      intro l hl
      rcases mem_setAdd.mp hl with h' | rfl
      · exact hp l h'
      · exact ⟨n, rfl, hn⟩
    rw [hsOf]
    rw [dispatch_pure hsub hnd' hp' fuel]
    have hbase : ∀ l ∈ setAdd (sOf b k) (L.base n), ∃ m, l = L.base m :=
      fun l hl => (hp' l hl).imp fun _ h => h.1
    simpa [count_trace p n hbase] using hcnt

/-- Concrete run of `subscribe_idempotent` from the empty bus. -/
theorem subscribe_idempotent_witness :
    subscribe (subscribe Bus.init "k" (L.base 0)) "k" (L.base 0) =
      subscribe Bus.init "k" (L.base 0) ∧
    (sOf (subscribe Bus.init "k" (L.base 0)) "k").count (L.base 0) = 1 ∧
    ((dispatch (Env.mk fun _ => Act.pure)
        ((sOf (subscribe Bus.init "k" (L.base 0)) "k").length + 4)
        (subscribe Bus.init "k" (L.base 0)) "k" 7).2.1).count (0, 7) = 1 :=
  subscribe_idempotent (Env.mk fun _ => Act.pure) Bus.init "k" 0 7 4
    (by simp [sOf, Bus.init, mapGet])
    (by intro l hl; simp [sOf, Bus.init, mapGet] at hl)
    rfl

/-! ### Claim C7: multiple tracks the listener independently per kind -/

/-- C7.  After `multiple([k1, k2], l)` and `unsubscribe(k1, l)`, a dispatch
on `k2` still invokes `l`, and `k1`'s registration state for every other
listener is unchanged (stated for a non-mutating listener population on
`k2` so the dispatch run is determined). -/
theorem multiple_independent_per_kind (env : Env) (b : Bus) (k1 k2 : Kind)
    (n : Nat) (p : Payload) (fuel : Nat)
    (hk : k1 ≠ k2)
    (hnd : (sOf b k2).Nodup)
    (hp : ∀ l ∈ sOf b k2, PureB env l)
    (hn : env.act n = Act.pure) :
    (n, p) ∈ (dispatch env ((sOf b k2).length + 1 + fuel)
        (unsubscribe (multiple b [k1, k2] (L.base n)) k1 (L.base n)) k2 p).2.1 ∧
    (∀ l : L, l ≠ L.base n →
      (l ∈ sOf (unsubscribe (multiple b [k1, k2] (L.base n)) k1 (L.base n)) k1 ↔
        l ∈ sOf b k1)) := by
  have hm : multiple b [k1, k2] (L.base n)
      = subscribe (subscribe b k1 (L.base n)) k2 (L.base n) := rfl
  constructor
  · have hget2 : mapGet (unsubscribe (multiple b [k1, k2] (L.base n)) k1
        (L.base n)).stack k2 = some (setAdd (sOf b k2) (L.base n)) := by
      rw [hm, mapGet_unsubscribe_ne _ _ (Ne.symm hk)]
      rw [mapGet_subscribe_self]
      rw [sOf_subscribe_ne _ _ (Ne.symm hk)]
    have hnd' : (setAdd (sOf b k2) (L.base n)).Nodup := nodup_setAdd _ hnd
    have hp' : ∀ l ∈ setAdd (sOf b k2) (L.base n), PureB env l := by
      intro l hl
      rcases mem_setAdd.mp hl with h' | rfl
      · exact hp l h'
      · exact ⟨n, rfl, hn⟩
    have hlen : (sOf b k2).length + 1 + fuel
        = (setAdd (sOf b k2) (L.base n)).length + fuel ∨
        (sOf b k2).length + 1 + fuel
        = (setAdd (sOf b k2) (L.base n)).length + (fuel + 1) := by
      by_cases hmem : L.base n ∈ sOf b k2
      · right
        rw [setAdd_of_mem hmem]
        omega
      · left
        rw [setAdd_of_not_mem hmem]
        simp
    have htr : ∀ f', (dispatch env ((setAdd (sOf b k2) (L.base n)).length + f')
        (unsubscribe (multiple b [k1, k2] (L.base n)) k1 (L.base n)) k2 p).2.1
        = (setAdd (sOf b k2) (L.base n)).map (fun l => (l.invokes, p)) := by
      intro f'
      rw [dispatch_pure hget2 hnd' hp' f']
    have hmemtr : (n, p) ∈ (setAdd (sOf b k2) (L.base n)).map
        (fun l => (l.invokes, p)) :=
      List.mem_map.mpr ⟨L.base n, mem_setAdd.mpr (Or.inr rfl), by simp [L.invokes]⟩
    rcases hlen with h' | h'
    · rw [h', htr fuel]
      exact hmemtr
    · rw [h', htr (fuel + 1)]
      exact hmemtr
  · intro l hl
    have h1 : sOf (unsubscribe (multiple b [k1, k2] (L.base n)) k1 (L.base n)) k1
        = (setAdd (sOf b k1) (L.base n)).erase (L.base n) := by
      rw [hm, sOf_unsubscribe_self]
      rw [sOf_subscribe_ne _ _ hk, sOf_subscribe_self]
    rw [h1, List.mem_erase_of_ne hl, mem_setAdd]
    constructor
    · rintro (h' | h')
      · exact h'
      · exact absurd h' hl
    · exact Or.inl

/-- Concrete run of `multiple_independent_per_kind`. -/
theorem multiple_independent_per_kind_witness :
    (1, 7) ∈ (dispatch (Env.mk fun _ => Act.pure) ((sOf Bus.init "b").length + 1 + 4)
        (unsubscribe (multiple Bus.init ["a", "b"] (L.base 1)) "a" (L.base 1)) "b" 7).2.1 ∧
    (L.base 9 ∈ sOf (unsubscribe (multiple Bus.init ["a", "b"] (L.base 1)) "a"
        (L.base 1)) "a" ↔ L.base 9 ∈ sOf Bus.init "a") := by
  have h := multiple_independent_per_kind (Env.mk fun _ => Act.pure) Bus.init
    "a" "b" 1 7 4 (by decide)
    (by simp [sOf, Bus.init, mapGet])
    (by intro l hl; simp [sOf, Bus.init, mapGet] at hl)
    rfl
  exact ⟨h.1, h.2 (L.base 9) (by decide)⟩

/-! ### Claim C3: once fires exactly once and removes one listener -/

theorem dispatchLoop_pure_avoid (env : Env) (k : Kind) (i : Nat) (p : Payload) :
    ∀ (fuel : Nat) (b : Bus) (v : List L),
    (∀ l ∈ sOf b k, PureB env l ∧ l.invokes ≠ i) →
    ∀ x, (i, x) ∉ (dispatchLoop env fuel b k p v).2.1 := by
  intro fuel
  induction fuel with
  | zero => intro b v _ x; simp [dispatchLoop]
  | succ f ih =>
      intro b v hb x
      rw [dispatchLoop]
      cases hg : mapGet b.stack k with
      | none => simp [hg]
      | some s =>
          simp only [hg]
          cases hf : firstUnvisited s v with
          | none => simp [hf]
          | some l =>
              simp only [hf]
              have hls : l ∈ sOf b k := by
                simp only [sOf, hg, Option.getD_some]
                exact mem_of_firstUnvisited hf
              obtain ⟨⟨m, rfl, hact⟩, hinv⟩ := hb l hls
              have hinvoke : invoke env b (L.base m) p = (b, [(m, p)], false) := by
                simp [invoke, runBase, hact]
              simp only [hinvoke, Bool.false_eq_true, if_false]
              simp only [List.mem_append, List.mem_singleton, not_or]
              constructor
              · intro hc
                exact hinv ((congrArg Prod.fst hc).symm)
              · exact ih b (v ++ [L.base m]) hb x

/-- C3.  For a non-mutating, non-throwing listener `n` and a kind whose
current listeners are non-mutating and distinct from `n`: after
`once(k, n)`, the first dispatch invokes `n` (last in the trace) and
returns a bus whose stack is back to the pre-`once` stack — so the listener
count of `k` drops by exactly one from the `s.length + 1` it had after
`once` — and no second dispatch from that bus ever invokes `n` again. -/
theorem once_fires_exactly_once (env : Env) (b : Bus) (k : Kind) (n : Nat)
    (p : Payload) (s : List L) (fuel : Nat)
    (hs : mapGet b.stack k = some s)
    (hnd : s.Nodup)
    (hp : ∀ l ∈ s, ∃ m, l = L.base m ∧ m ≠ n ∧ env.act m = Act.pure)
    (hn : env.act n = Act.pure) :
    dispatch env (s.length + 1 + fuel) (once b k n) k p =
      (Bus.mk b.stack (b.next + 1),
       s.map (fun l => (l.invokes, p)) ++ [(n, p)], false) ∧
    (sOf (once b k n) k).length = s.length + 1 ∧
    (∀ f2 x, (n, x) ∉ (dispatch env f2 (Bus.mk b.stack (b.next + 1)) k p).2.1) := by
  have hsOf : sOf b k = s := by simp [sOf, hs]
  have hw : L.wrapper k n b.next ∉ s := by
    intro hmem
    obtain ⟨m, heq, -, -⟩ := hp _ hmem
    exact L.noConfusion heq
  have hpure : ∀ l ∈ s, PureB env l := by
    intro l hl
    obtain ⟨m, rfl, -, hact⟩ := hp l hl
    exact ⟨m, rfl, hact⟩
  have hb1 : once b k n = Bus.mk (mapSet b.stack k (s ++ [L.wrapper k n b.next]))
      (b.next + 1) := by
    unfold once subscribe
    simp [hs, hsOf, setAdd_of_not_mem hw]
  have hb1get : mapGet (once b k n).stack k = some (s ++ [L.wrapper k n b.next]) := by
    rw [hb1]
    exact mapGet_mapSet_self _ _ _
  have hfw : firstUnvisited (s ++ [L.wrapper k n b.next]) s
      = some (L.wrapper k n b.next) :=
    firstUnvisited_seg [] (fun l hl => hl) hw
  have hinvw : invoke env (once b k n) (L.wrapper k n b.next) p
      = (unsubscribe (once b k n) k (L.wrapper k n b.next), [(n, p)], false) := by
    simp [invoke, runBase, hn]
  have hb2 : unsubscribe (once b k n) k (L.wrapper k n b.next)
      = Bus.mk b.stack (b.next + 1) := by
    rw [hb1]
    unfold unsubscribe
    simp only [mapGet_mapSet_self]
    rw [List.erase_append_right _ hw]
    simp [mapSet_mapSet, mapSet_self hs]
  have hvis2 : ∀ f', dispatchLoop env f' (Bus.mk b.stack (b.next + 1)) k p
      (s ++ [L.wrapper k n b.next]) = (Bus.mk b.stack (b.next + 1), [], false) := by
    intro f'
    refine dispatchLoop_visited ?_
    intro l hl
    simp only [sOf, hs, Option.getD_some] at hl
    exact List.mem_append.mpr (Or.inl hl)
  refine ⟨?_, ?_, ?_⟩
  · rw [dispatch_of_some hb1get]
    have harith : s.length + 1 + fuel = s.length + (fuel + 1) := by omega
    rw [harith]
    have hseg := dispatchLoop_pureSeg env k p s [] [L.wrapper k n b.next]
      (once b k n) [] (fuel + 1) (by simpa using hb1get)
      (by simp [List.nodup_append, hnd, hw]) (by simp) (by simp) hpure
    simp only [List.nil_append] at hseg
    rw [hseg]
    rw [dispatchLoop_step hb1get hfw]
    simp only [hinvw, Bool.false_eq_true, if_false, List.nil_append]
    rw [hb2, hvis2 fuel]
    simp
  · rw [sOf, hb1get]
    simp
  · intro f2 x
    cases hg2 : mapGet (Bus.mk b.stack (b.next + 1)).stack k with
    | none => simp [dispatch_of_none hg2]
    | some s' =>
        rw [dispatch_of_some hg2]
        refine dispatchLoop_pure_avoid env k n p f2 _ [] ?_ x
        intro l hl
        simp only [sOf, hg2, Option.getD_some] at hl
        have hss : s' = s := by
          have : mapGet b.stack k = some s' := hg2
          rw [hs] at this
          exact (Option.some.injEq _ _ ▸ this).symm
        subst hss
        obtain ⟨m, rfl, hmn, hact⟩ := hp l hl
        exact ⟨⟨m, rfl, hact⟩, by simpa [L.invokes] using hmn⟩

/-- Concrete run of `once_fires_exactly_once`: one pre-existing listener,
then `once`; the first dispatch fires both, the second only the survivor. -/
theorem once_fires_exactly_once_witness :
    dispatch (Env.mk fun _ => Act.pure) 3
        (once (subscribe Bus.init "server:started" (L.base 1)) "server:started" 0)
        "server:started" 7 =
      (Bus.mk (subscribe Bus.init "server:started" (L.base 1)).stack 1,
       [(1, 7), (0, 7)], false) ∧
    (sOf (once (subscribe Bus.init "server:started" (L.base 1)) "server:started" 0)
        "server:started").length = 2 ∧
    (0, 7) ∉ (dispatch (Env.mk fun _ => Act.pure) 3
        (Bus.mk (subscribe Bus.init "server:started" (L.base 1)).stack 1)
        "server:started" 7).2.1 := by
  have h := once_fires_exactly_once (Env.mk fun _ => Act.pure)
    (subscribe Bus.init "server:started" (L.base 1)) "server:started" 0 7
    [L.base 1] 1 (by decide) (by decide)
    (by
      intro l hl
      simp only [List.mem_singleton] at hl
      subst hl
      exact ⟨1, rfl, by decide, rfl⟩)
    rfl
  refine ⟨by simpa using h.1, by simpa using h.2.1, h.2.2 3 7⟩

/-! ### Claim C9: once is not idempotent -/

/-- C9.  Unlike `subscribe`, `once` is not idempotent: calling
`once(k, n)` twice allocates two distinct wrapper closures, both end up in
`k`'s listener set, and a single dispatch then invokes listener `n` exactly
twice (stated for a pre-existing listener population that is non-mutating
and distinct from `n`). -/
theorem once_not_idempotent (env : Env) (b : Bus) (k : Kind) (n : Nat)
    (p : Payload) (s : List L) (fuel : Nat)
    (hs : mapGet b.stack k = some s)
    (hnd : s.Nodup)
    (hp : ∀ l ∈ s, ∃ m, l = L.base m ∧ m ≠ n ∧ env.act m = Act.pure)
    (hn : env.act n = Act.pure) :
    L.wrapper k n b.next ≠ L.wrapper k n (b.next + 1) ∧
    sOf (once (once b k n) k n) k
      = s ++ [L.wrapper k n b.next, L.wrapper k n (b.next + 1)] ∧
    ((dispatch env (s.length + 2 + fuel)
        (once (once b k n) k n) k p).2.1).count (n, p) = 2 := by
  have hsOf : sOf b k = s := by simp [sOf, hs]
  have hw12 : L.wrapper k n b.next ≠ L.wrapper k n (b.next + 1) := by
    simp
  have hwsgen : ∀ uid, L.wrapper k n uid ∉ s := by
    intro uid hmem
    obtain ⟨m, heq, -, -⟩ := hp _ hmem
    exact L.noConfusion heq
  have hpure : ∀ l ∈ s, PureB env l := by
    intro l hl
    obtain ⟨m, rfl, -, hact⟩ := hp l hl
    exact ⟨m, rfl, hact⟩
  have hbn : L.base n ∉ s := by
    intro hmem
    obtain ⟨m, heq, hmn, -⟩ := hp _ hmem
    exact hmn (L.base.inj heq).symm
  have hb1 : once b k n
      = Bus.mk (mapSet b.stack k (s ++ [L.wrapper k n b.next])) (b.next + 1) := by
    unfold once subscribe
    simp [hs, hsOf, setAdd_of_not_mem (hwsgen b.next)]
  have hw2mem : L.wrapper k n (b.next + 1) ∉ s ++ [L.wrapper k n b.next] := by
    simp [hwsgen (b.next + 1)]
  have hb2 : once (once b k n) k n
      = Bus.mk (mapSet b.stack k
          (s ++ [L.wrapper k n b.next, L.wrapper k n (b.next + 1)]))
        (b.next + 2) := by
    rw [hb1]
    unfold once subscribe
    simp only [mapGet_mapSet_self, Option.isSome_some, if_true, sOf,
      Option.getD_some]
    rw [setAdd_of_not_mem hw2mem, mapSet_mapSet]
    simp
  have hb2get : mapGet (once (once b k n) k n).stack k
      = some (s ++ [L.wrapper k n b.next, L.wrapper k n (b.next + 1)]) := by
    rw [hb2]
    exact mapGet_mapSet_self _ _ _
  refine ⟨hw12, by simp [sOf, hb2get], ?_⟩
  rw [dispatch_of_some hb2get]
  have harith : s.length + 2 + fuel = s.length + ((fuel + 1) + 1) := by omega
  rw [harith]
  have hseg := dispatchLoop_pureSeg env k p s []
    [L.wrapper k n b.next, L.wrapper k n (b.next + 1)]
    (once (once b k n) k n) [] ((fuel + 1) + 1) (by simpa using hb2get)
    (by
      simp [List.nodup_append, hnd, hwsgen b.next, hwsgen (b.next + 1), hw12])
    (by simp) (by simp) hpure
  simp only [List.nil_append] at hseg
  rw [hseg]
  have hf1 : firstUnvisited
      (s ++ [L.wrapper k n b.next, L.wrapper k n (b.next + 1)]) s
      = some (L.wrapper k n b.next) :=
    firstUnvisited_seg [L.wrapper k n (b.next + 1)] (fun l hl => hl)
      (hwsgen b.next)
  have hinv1 : invoke env (once (once b k n) k n) (L.wrapper k n b.next) p
      = (unsubscribe (once (once b k n) k n) k (L.wrapper k n b.next),
         [(n, p)], false) := by
    simp [invoke, runBase, hn]
  rw [dispatchLoop_step hb2get hf1]
  simp only [hinv1, Bool.false_eq_true, if_false]
  have hb3 : unsubscribe (once (once b k n) k n) k (L.wrapper k n b.next)
      = Bus.mk (mapSet b.stack k (s ++ [L.wrapper k n (b.next + 1)]))
        (b.next + 2) := by
    rw [hb2]
    unfold unsubscribe
    simp only [mapGet_mapSet_self]
    rw [List.erase_append_right _ (hwsgen b.next)]
    simp [mapSet_mapSet, Ne.symm hw12]
  rw [hb3]
  have hb3get : mapGet (Bus.mk (mapSet b.stack k
      (s ++ [L.wrapper k n (b.next + 1)])) (b.next + 2)).stack k
      = some (s ++ [L.wrapper k n (b.next + 1)]) := mapGet_mapSet_self _ _ _
  have hf2 : firstUnvisited (s ++ [L.wrapper k n (b.next + 1)])
      (s ++ [L.wrapper k n b.next]) = some (L.wrapper k n (b.next + 1)) :=
    firstUnvisited_seg [] (fun l hl => List.mem_append.mpr (Or.inl hl))
      hw2mem
  rw [dispatchLoop_step hb3get hf2]
  have hinv2 : invoke env (Bus.mk (mapSet b.stack k
      (s ++ [L.wrapper k n (b.next + 1)])) (b.next + 2))
      (L.wrapper k n (b.next + 1)) p
      = (unsubscribe (Bus.mk (mapSet b.stack k
          (s ++ [L.wrapper k n (b.next + 1)])) (b.next + 2)) k
          (L.wrapper k n (b.next + 1)), [(n, p)], false) := by
    simp [invoke, runBase, hn]
  simp only [hinv2, Bool.false_eq_true, if_false]
  have hb4get : mapGet (unsubscribe (Bus.mk (mapSet b.stack k
      (s ++ [L.wrapper k n (b.next + 1)])) (b.next + 2)) k
      (L.wrapper k n (b.next + 1))).stack k = some s := by
    rw [mapGet_unsubscribe_self _ hb3get]
    rw [List.erase_append_right _ (hwsgen (b.next + 1))]
    simp
  have hvis : dispatchLoop env fuel (unsubscribe (Bus.mk (mapSet b.stack k
      (s ++ [L.wrapper k n (b.next + 1)])) (b.next + 2)) k
      (L.wrapper k n (b.next + 1))) k p
      ((s ++ [L.wrapper k n b.next]) ++ [L.wrapper k n (b.next + 1)])
      = (unsubscribe (Bus.mk (mapSet b.stack k
          (s ++ [L.wrapper k n (b.next + 1)])) (b.next + 2)) k
          (L.wrapper k n (b.next + 1)), [], false) := by
    refine dispatchLoop_visited ?_
    intro l hl
    simp only [sOf, hb4get, Option.getD_some] at hl
    simp [hl]
  rw [hvis]
  have hbase : ∀ l ∈ s, ∃ m, l = L.base m :=
    fun l hl => ((hp l hl).imp fun _ h => h.1)
  simp [List.count_append, count_trace p n hbase,
    List.count_eq_zero_of_not_mem hbn]

/-- Concrete run of `once_not_idempotent` from the empty bus: one dispatch
after two `once` registrations of the same listener invokes it twice. -/
theorem once_not_idempotent_witness :
    L.wrapper "k" 0 0 ≠ L.wrapper "k" 0 1 ∧
    sOf (once (once (Bus.mk [("k", [])] 0) "k" 0) "k" 0) "k"
      = [L.wrapper "k" 0 0, L.wrapper "k" 0 1] ∧
    ((dispatch (Env.mk fun _ => Act.pure) 4
        (once (once (Bus.mk [("k", [])] 0) "k" 0) "k" 0) "k" 7).2.1).count (0, 7)
      = 2 := by
  have h := once_not_idempotent (Env.mk fun _ => Act.pure) (Bus.mk [("k", [])] 0)
    "k" 0 7 [] 2 (by decide) (by simp)
    (by intro l hl; simp at hl) rfl
  simpa using h

/-! ### Claim C10: dispatch iterates the live set, not a snapshot -/

/-- C10.  `dispatch` iterates the live listener set.  First part: a listener
that subscribes a new listener to the same kind mid-dispatch causes the new
listener to be invoked with the same payload within the same pass (the
trace is `[(a,p), (c,p), (m,p)]` although only `a` and `c` were registered
when the dispatch began).  Second part: a listener that unsubscribes a
not-yet-invoked listener prevents its invocation in that pass (the trace is
just `[(a,p)]`). -/
theorem dispatch_iterates_live_set :
    (∀ (env : Env) (b : Bus) (k : Kind) (p : Payload) (a c m : Nat)
        (fuel : Nat),
      mapGet b.stack k = some [L.base a, L.base c] →
      env.act a = Act.subAct k m →
      env.act c = Act.pure → env.act m = Act.pure →
      a ≠ c → m ≠ a → m ≠ c →
      (dispatch env (3 + fuel) b k p).2.1 = [(a, p), (c, p), (m, p)]) ∧
    (∀ (env : Env) (b : Bus) (k : Kind) (p : Payload) (a c : Nat)
        (fuel : Nat),
      mapGet b.stack k = some [L.base a, L.base c] →
      env.act a = Act.unsubAct k c →
      a ≠ c →
      (dispatch env (2 + fuel) b k p).2.1 = [(a, p)]) := by
  constructor
  · intro env b k p a c m fuel hs ha hc hm hac hma hmc
    rw [dispatch_of_some hs]
    have h3 : 3 + fuel = (2 + fuel) + 1 := by omega
    rw [h3]
    have hf1 : firstUnvisited [L.base a, L.base c] [] = some (L.base a) := rfl
    have hinv1 : invoke env b (L.base a) p
        = (subscribe b k (L.base m), [(a, p)], false) := by
      simp [invoke, runBase, ha]
    rw [dispatchLoop_step hs hf1]
    simp only [hinv1, Bool.false_eq_true, if_false, List.nil_append]
    have hb1get : mapGet (subscribe b k (L.base m)).stack k
        = some [L.base a, L.base c, L.base m] := by
      rw [mapGet_subscribe_self]
      have hsOf : sOf b k = [L.base a, L.base c] := by simp [sOf, hs]
      rw [hsOf, setAdd_of_not_mem (by simp [hma, hmc])]
      simp
    have h2 : 2 + fuel = (1 + fuel) + 1 := by omega
    rw [h2]
    have hf2 : firstUnvisited [L.base a, L.base c, L.base m] [L.base a]
        = some (L.base c) := by
      have hstep : firstUnvisited ([L.base a] ++ L.base c :: [L.base m])
          [L.base a] = some (L.base c) :=
        firstUnvisited_seg [L.base m] (fun l hl => hl) (by simp [Ne.symm hac])
      simpa using hstep
    have hinv2 : invoke env (subscribe b k (L.base m)) (L.base c) p
        = (subscribe b k (L.base m), [(c, p)], false) := by
      simp [invoke, runBase, hc]
    rw [dispatchLoop_step hb1get hf2]
    simp only [hinv2, Bool.false_eq_true, if_false]
    have h1 : 1 + fuel = fuel + 1 := by omega
    rw [h1]
    have hf3 : firstUnvisited [L.base a, L.base c, L.base m]
        ([L.base a] ++ [L.base c]) = some (L.base m) := by
      have hstep : firstUnvisited ([L.base a, L.base c] ++ L.base m :: [])
          ([L.base a] ++ [L.base c]) = some (L.base m) :=
        firstUnvisited_seg [] (fun l hl => by simpa using hl)
          (by simp [hma, hmc])
      simpa using hstep
    have hinv3 : invoke env (subscribe b k (L.base m)) (L.base m) p
        = (subscribe b k (L.base m), [(m, p)], false) := by
      simp [invoke, runBase, hm]
    rw [dispatchLoop_step hb1get hf3]
    simp only [hinv3, Bool.false_eq_true, if_false]
    have hvis : dispatchLoop env fuel (subscribe b k (L.base m)) k p
        (([L.base a] ++ [L.base c]) ++ [L.base m])
        = (subscribe b k (L.base m), [], false) := by
      refine dispatchLoop_visited ?_
      intro l hl
      simp only [sOf, hb1get, Option.getD_some] at hl
      simpa using hl
    rw [hvis]
    simp
  · intro env b k p a c fuel hs ha hac
    rw [dispatch_of_some hs]
    have h2 : 2 + fuel = (1 + fuel) + 1 := by omega
    rw [h2]
    have hf1 : firstUnvisited [L.base a, L.base c] [] = some (L.base a) := rfl
    have hinv1 : invoke env b (L.base a) p
        = (unsubscribe b k (L.base c), [(a, p)], false) := by
      simp [invoke, runBase, ha]
    rw [dispatchLoop_step hs hf1]
    simp only [hinv1, Bool.false_eq_true, if_false, List.nil_append]
    have hb1get : mapGet (unsubscribe b k (L.base c)).stack k
        = some [L.base a] := by
      rw [mapGet_unsubscribe_self _ hs]
      congr 1
      simp [List.erase_cons, hac]
    have hvis : dispatchLoop env (1 + fuel) (unsubscribe b k (L.base c)) k p
        [L.base a] = (unsubscribe b k (L.base c), [], false) := by
      refine dispatchLoop_visited ?_
      intro l hl
      simp only [sOf, hb1get, Option.getD_some] at hl
      simpa using hl
    rw [hvis]
    simp

/-- Concrete runs of `dispatch_iterates_live_set`: listener 0 subscribes
listener 2 mid-pass (trace picks it up), and listener 0 unsubscribes the
not-yet-invoked listener 1 (trace omits it). -/
theorem dispatch_iterates_live_set_witness :
    (dispatch (Env.mk fun x => if x = 0 then Act.subAct "k" 2 else Act.pure) 3
        (Bus.mk [("k", [L.base 0, L.base 1])] 0) "k" 7).2.1
      = [(0, 7), (1, 7), (2, 7)] ∧
    (dispatch (Env.mk fun x => if x = 0 then Act.unsubAct "k" 1 else Act.pure) 2
        (Bus.mk [("k", [L.base 0, L.base 1])] 0) "k" 7).2.1
      = [(0, 7)] := by
  constructor
  · exact dispatch_iterates_live_set.1
      (Env.mk fun x => if x = 0 then Act.subAct "k" 2 else Act.pure)
      (Bus.mk [("k", [L.base 0, L.base 1])] 0) "k" 7 0 1 2 0
      (by decide) rfl rfl rfl (by decide) (by decide) (by decide)
  · exact dispatch_iterates_live_set.2
      (Env.mk fun x => if x = 0 then Act.unsubAct "k" 1 else Act.pure)
      (Bus.mk [("k", [L.base 0, L.base 1])] 0) "k" 7 0 1 0
      (by decide) rfl (by decide)

/-! ### Claim C1: a throw from the callable skips the once-unsubscribe -/

/-- C1 (divergence witness).  The source's `once` wrapper runs
`callable(payload); this.unsubscribe(event, once);` with no try/finally, so
with a listener that throws: the first dispatch propagates the throw, the
wrapper is still registered afterwards, and a second dispatch invokes the
listener again — the spec requires the automatic unsubscription to happen
even when the listener raises, so the code contradicts the claim (and its
own doc comment "executed only once, then automatically unsubscribes"). -/
theorem once_unsubscribe_skipped_on_throw :
    (dispatch (Env.mk fun x => if x = 0 then Act.throws else Act.pure) 5
        (once Bus.init "server:started" 0) "server:started" 7).2.2 = true ∧
    sOf (dispatch (Env.mk fun x => if x = 0 then Act.throws else Act.pure) 5
        (once Bus.init "server:started" 0) "server:started" 7).1
      "server:started" = [L.wrapper "server:started" 0 0] ∧
    (dispatch (Env.mk fun x => if x = 0 then Act.throws else Act.pure) 5
        (dispatch (Env.mk fun x => if x = 0 then Act.throws else Act.pure) 5
          (once Bus.init "server:started" 0) "server:started" 7).1
        "server:started" 7).2.1 = [(0, 7)] := by
  refine ⟨rfl, rfl, rfl⟩

/-! ### Claim C2: unsubscribe(K, L) does not remove a once-wrapper of L -/

/-- C2 (counterexample).  The claim "unsubscribe(K, L) followed by
dispatch(K, P) never invokes L, in particular when L was registered via
once(K, L)" is false on the code: `once` stores a wrapper, `unsubscribe`
deletes only `L` itself, so the wrapper survives and the dispatch still
invokes `L`. -/
theorem unsubscribe_after_once_still_invokes :
    (0, 7) ∈ (dispatch (Env.mk fun _ => Act.pure) 5
      (unsubscribe (once Bus.init "user:created" 0) "user:created" (L.base 0))
      "user:created" 7).2.1 := by
  refine List.mem_singleton.mpr rfl

theorem runBase_stack_avoid {env : Env} {k : Kind} {i : Nat}
    (henv : ∀ m, env.act m ≠ Act.subAct k i) {b : Bus}
    (hb : ∀ l ∈ sOf b k, l.invokes ≠ i) (n : Nat) :
    ∀ l' ∈ sOf (runBase env b n).1 k, l'.invokes ≠ i := by
  cases hact : env.act n with
  | pure =>
      simp only [runBase, hact]
      exact hb
  | throws =>
      simp only [runBase, hact]
      exact hb
  | subAct k' m =>
      simp only [runBase, hact]
      by_cases hk : k = k'
      · subst hk
        intro l' hl'
        rw [sOf_subscribe_self] at hl'
        rcases mem_setAdd.mp hl' with h' | rfl
        · exact hb l' h'
        · intro hinv
          apply henv n
          rw [hact]
          have hmi : m = i := hinv
          rw [hmi]
      · intro l' hl'
        rw [sOf_subscribe_ne _ _ hk] at hl'
        exact hb l' hl'
  | unsubAct k' m =>
      simp only [runBase, hact]
      by_cases hk : k = k'
      · subst hk
        intro l' hl'
        rw [sOf_unsubscribe_self] at hl'
        exact hb l' (List.mem_of_mem_erase hl')
      · intro l' hl'
        rw [sOf_unsubscribe_ne _ _ hk] at hl'
        exact hb l' hl'

theorem invoke_stack_avoid {env : Env} {k : Kind} {i : Nat}
    (henv : ∀ m, env.act m ≠ Act.subAct k i) {b : Bus}
    (hb : ∀ l ∈ sOf b k, l.invokes ≠ i) (l : L) (p : Payload) :
    ∀ l' ∈ sOf (invoke env b l p).1 k, l'.invokes ≠ i := by
  cases l with
  | base n =>
      simp only [invoke]
      exact runBase_stack_avoid henv hb n
  | wrapper k' n uid =>
      simp only [invoke]
      by_cases ht : (runBase env b n).2 = true
      · simp only [ht, if_true]
        exact runBase_stack_avoid henv hb n
      · simp only [ht, Bool.false_eq_true, if_false]
        by_cases hk : k = k'
        · subst hk
          intro l' hl'
          rw [sOf_unsubscribe_self] at hl'
          exact runBase_stack_avoid henv hb n l' (List.mem_of_mem_erase hl')
        · intro l' hl'
          rw [sOf_unsubscribe_ne _ _ hk] at hl'
          exact runBase_stack_avoid henv hb n l' hl'

theorem invoke_trace {env : Env} {b : Bus} (l : L) (p : Payload) :
    (invoke env b l p).2.1 = [(l.invokes, p)] := by
  cases l with
  | base n => rfl
  | wrapper k' n uid =>
      simp only [invoke]
      by_cases ht : (runBase env b n).2 = true
      · simp [ht, L.invokes]
      · simp [ht, L.invokes]

theorem dispatchLoop_mut_avoid (env : Env) (k : Kind) (i : Nat) (p : Payload)
    (henv : ∀ m, env.act m ≠ Act.subAct k i) :
    ∀ (fuel : Nat) (b : Bus) (v : List L),
    (∀ l ∈ sOf b k, l.invokes ≠ i) →
    ∀ x, (i, x) ∉ (dispatchLoop env fuel b k p v).2.1 := by
  intro fuel
  induction fuel with
  | zero => intro b v _ x; simp [dispatchLoop]
  | succ f ih =>
      intro b v hb x
      rw [dispatchLoop]
      cases hg : mapGet b.stack k with
      | none => simp [hg]
      | some s =>
          simp only [hg]
          cases hf : firstUnvisited s v with
          | none => simp [hf]
          | some l =>
              simp only [hf]
              have hls : l ∈ sOf b k := by
                simp only [sOf, hg, Option.getD_some]
                exact mem_of_firstUnvisited hf
              have hli : l.invokes ≠ i := hb l hls
              have hsing : (i, x) ∉ [(l.invokes, p)] := by
                intro hc
                exact hli ((congrArg Prod.fst (List.mem_singleton.mp hc)).symm)
              by_cases hthrow : (invoke env b l p).2.2 = true
              · simp only [hthrow, if_true]
                rw [invoke_trace]
                exact hsing
              · simp only [hthrow, Bool.false_eq_true, if_false]
                rw [invoke_trace]
                simp only [List.mem_append, not_or]
                exact ⟨hsing, ih _ _ (invoke_stack_avoid henv hb l p) x⟩

/-- C2 (amended).  `unsubscribe(k, i)` followed by `dispatch(k, p)` never
invokes listener `i`, provided every registration of `i` under `k` is a
direct subscription of `i` itself (it occurs at most once, and no
once-wrapper calling `i` sits in `k`'s set) and no listener behaviour
re-subscribes `i` to `k` mid-dispatch.  A registration made via
`once(k, i)` stores a wrapper that `unsubscribe(k, i)` does not remove, so
in that case `i` can still be invoked (see the counterexample). -/
theorem unsubscribe_then_dispatch_never_invokes (env : Env) (b : Bus)
    (k : Kind) (i : Nat) (p : Payload) (fuel : Nat)
    (henv : ∀ m, env.act m ≠ Act.subAct k i)
    (hdir : ∀ l ∈ sOf b k, l.invokes = i → l = L.base i)
    (hcnt : (sOf b k).count (L.base i) ≤ 1) :
    ∀ x, (i, x) ∉ (dispatch env fuel (unsubscribe b k (L.base i)) k p).2.1 := by
  intro x
  have hb' : ∀ l ∈ sOf (unsubscribe b k (L.base i)) k, l.invokes ≠ i := by
    intro l hl hinv
    rw [sOf_unsubscribe_self] at hl
    have hmem : l ∈ sOf b k := List.mem_of_mem_erase hl
    have hli : l = L.base i := hdir l hmem hinv
    subst hli
    have h1 : 0 < ((sOf b k).erase (L.base i)).count (L.base i) :=
      List.count_pos_iff.mpr hl
    have h2 : ((sOf b k).erase (L.base i)).count (L.base i)
        = (sOf b k).count (L.base i) - 1 := List.count_erase_self _ _
    omega
  cases hg : mapGet (unsubscribe b k (L.base i)).stack k with
  | none => simp [dispatch_of_none hg]
  | some s' =>
      rw [dispatch_of_some hg]
      exact dispatchLoop_mut_avoid env k i p henv fuel _ [] hb' x

/-- Concrete run of `unsubscribe_then_dispatch_never_invokes`: a directly
subscribed listener, once unsubscribed, is not invoked by the dispatch. -/
theorem unsubscribe_then_dispatch_never_invokes_witness :
    (0, 9) ∉ (dispatch (Env.mk fun _ => Act.pure) 5
      (unsubscribe (subscribe Bus.init "user:created" (L.base 0))
        "user:created" (L.base 0)) "user:created" 9).2.1 :=
  unsubscribe_then_dispatch_never_invokes (Env.mk fun _ => Act.pure)
    (subscribe Bus.init "user:created" (L.base 0)) "user:created" 0 9 5
    (fun m h => Act.noConfusion h) (by decide) (by decide) 9

end EventsBus
